import Mathlib

/-!
Verification of the anthropic-api-key-manager repository.

This file gives a shallow embedding of the parts of the repository that the
claims are about:

* the UI API wrappers of `src/ui/src/utils/api.ts` (`addApiKey`,
  `removeApiKey`, `setAdminKey`, `refreshCosts`), modelled over a JSON value
  type at the point after `JSON.parse` has succeeded;
* the chart preparation function `prepareChartData` of `src/ui/src/App.tsx`
  and its revised copy in `src/unnamed/part_002`;
* the credential-assignment registry, credential pool lifecycle and cost
  aggregator.  The backing Rust implementation (`lib.rs`) is not part of the
  source tree here, so those components are modelled from the specification
  (sections 3, 4.1, 4.2, 4.4 of spec.md); each such definition carries a
  doc comment starting with "Modelled from the spec".

JavaScript numbers are embedded as exact rationals (`Rat`) for monetary
amounts and as integers (`Int`) for unix timestamps; the claims under
consideration are about the algebraic structure of the computations, not
about floating-point rounding.
-/

/-- A parsed JSON value, the result of a successful `JSON.parse` in
`src/ui/src/utils/api.ts`.  Object fields keep their textual order;
property access takes the first binding of a name. -/
inductive Json where
  | null : Json
  | bool (b : Bool) : Json
  | num (q : Rat) : Json
  | str (s : String) : Json
  | arr (elems : List Json) : Json
  | obj (fields : List (String × Json)) : Json

/-- JavaScript property access `value.field` on a parsed JSON value:
`some` the bound value on an object that has the field, `none`
(i.e. `undefined`) otherwise. -/
def Json.lookup : Json → String → Option Json
  | .obj fields, name => (fields.find? (fun f => f.1 == name)).map (fun f => f.2)
  | _, _ => none

/-- JavaScript truthiness of a parsed JSON value: `false`, `null`, `0` and
the empty string are falsy, every other JSON value is truthy. -/
def Json.truthy : Json → Bool
  | .null => false
  | .bool b => b
  | .num q => !(q == 0)
  | .str s => !(s == "")
  | .arr _ => true
  | .obj _ => true

/-- Truthiness of `value.field` where an absent field (`undefined`) is
falsy, as in the guards `!result.success` of `src/ui/src/utils/api.ts`. -/
def Json.fieldTruthy (j : Json) (name : String) : Bool :=
  ((j.lookup name).getD Json.null).truthy

/-- The shared body of the four mutating wrappers in
`src/ui/src/utils/api.ts`: after `const result = JSON.parse(response)`,
`if (!result.success) throw new Error(result.message || defaultMsg)`.
`Except.error` carries the value handed to the `Error` constructor. -/
def checkSuccess (defaultMsg : String) (result : Json) : Except Json Unit :=
  if result.fieldTruthy "success" then
    Except.ok ()
  else
    Except.error (match result.lookup "message" with
      | some m => if m.truthy then m else Json.str defaultMsg
      | none => Json.str defaultMsg)

/-- `addApiKey` of `src/ui/src/utils/api.ts`, after the response body has
been parsed. -/
def addApiKey (result : Json) : Except Json Unit :=
  checkSuccess "Failed to add API key" result

/-- `removeApiKey` of `src/ui/src/utils/api.ts`, after the response body has
been parsed. -/
def removeApiKey (result : Json) : Except Json Unit :=
  checkSuccess "Failed to remove API key" result

/-- `setAdminKey` of `src/ui/src/utils/api.ts`, after the response body has
been parsed. -/
def setAdminKey (result : Json) : Except Json Unit :=
  checkSuccess "Failed to set admin key" result

/-- `refreshCosts` of `src/ui/src/utils/api.ts`, after the response body has
been parsed. -/
def refreshCosts (result : Json) : Except Json Unit :=
  checkSuccess "Failed to refresh costs" result

example : addApiKey (Json.obj [("success", Json.bool true)]) = Except.ok () := rfl

example : refreshCosts (Json.obj [("success", Json.bool false), ("message", Json.str "boom")])
    = Except.error (Json.str "boom") := rfl

example : setAdminKey (Json.obj []) = Except.error (Json.str "Failed to set admin key") := rfl

/-- The wrapper returns normally exactly when the parsed response carries a
truthy `success` field. -/
def returnsIffSuccessTruthy (f : Json → Except Json Unit) (result : Json) : Prop :=
  f result = Except.ok () ↔ ∃ v, result.lookup "success" = some v ∧ v.truthy = true

/-- Whenever the wrapper throws, the `Error` value is the response's
`message` field if that field is present and truthy, and the wrapper's
fixed default message otherwise. -/
def throwsWithMessage (f : Json → Except Json Unit) (d : String) (result : Json) : Prop :=
  ∀ e, f result = Except.error e →
    (∃ m, result.lookup "message" = some m ∧ m.truthy = true ∧ e = m) ∨
    (e = Json.str d ∧ ∀ m, result.lookup "message" = some m → m.truthy = false)

lemma checkSuccess_ok_iff (d : String) (result : Json) :
    returnsIffSuccessTruthy (checkSuccess d) result := by
  unfold returnsIffSuccessTruthy checkSuccess Json.fieldTruthy
  cases hv : result.lookup "success" with
  | none => simp [Json.truthy]
  | some v =>
    simp only [Option.getD_some]
    by_cases ht : v.truthy = true
    · simp [ht]
    · simp only [ht, if_false, Bool.false_eq_true]
      constructor
      · intro h
        exact absurd h (by simp)
      · rintro ⟨x, hx, hxt⟩
        injection hx with h
        rw [h] at ht
        exact absurd hxt ht

lemma checkSuccess_error_msg (d : String) (result : Json) :
    throwsWithMessage (checkSuccess d) d result := by
  unfold throwsWithMessage checkSuccess
  intro e
  by_cases hs : result.fieldTruthy "success" = true
  · simp [hs]
  · simp only [hs, if_false, Bool.false_eq_true]
    cases hm : result.lookup "message" with
    | none =>
      intro he
      right
      refine ⟨by injection he with h; exact h.symm, ?_⟩
      intro m hmm
      exact absurd hmm (by simp)
    | some m =>
      by_cases ht : m.truthy = true
      · intro he
        left
        refine ⟨m, rfl, ht, ?_⟩
        injection he with h
        simp only [ht, if_true] at h
        exact h.symm
      · intro he
        right
        constructor
        · injection he with h
          simp only [ht, if_false, Bool.false_eq_true] at h
          exact h.symm
        · intro m2 hm2
          injection hm2 with h
          rw [← h]
          simpa using ht

/-- C8, counterexample to the claim as stated: the response
`\x7b"success": 0\x7d` parses as JSON and its `success` field is present and
is not `false`, yet `addApiKey` throws (with the default message), because
the source guard `!result.success` tests JavaScript truthiness, under which
the number 0 is falsy.  So "throws if and only if success is false or
absent" fails in the only-if direction. -/
theorem addApiKey_throws_on_numeric_zero_success :
    (Json.obj [("success", Json.num 0)]).lookup "success" = some (Json.num 0) ∧
    Json.num 0 ≠ Json.bool false ∧
    addApiKey (Json.obj [("success", Json.num 0)]) =
      Except.error (Json.str "Failed to add API key") := by
  refine ⟨rfl, ?_, rfl⟩
  intro h
  exact Json.noConfusion h

/-- C8 (amended): for every backend response that parses as JSON, each of
`addApiKey`, `removeApiKey`, `setAdminKey` and `refreshCosts` returns
normally exactly when the parsed response's `success` field is present and
truthy; whenever one of them throws, the thrown `Error` value is the
response's `message` field if that value is present and truthy, and the
wrapper's fixed default message otherwise.  In particular a backend failure
report (`success` false or missing) is never silently swallowed. -/
theorem apiWrappers_surface_backend_failures (result : Json) :
    (returnsIffSuccessTruthy addApiKey result ∧
      throwsWithMessage addApiKey "Failed to add API key" result) ∧
    (returnsIffSuccessTruthy removeApiKey result ∧
      throwsWithMessage removeApiKey "Failed to remove API key" result) ∧
    (returnsIffSuccessTruthy setAdminKey result ∧
      throwsWithMessage setAdminKey "Failed to set admin key" result) ∧
    (returnsIffSuccessTruthy refreshCosts result ∧
      throwsWithMessage refreshCosts "Failed to refresh costs" result) :=
  ⟨⟨checkSuccess_ok_iff _ _, checkSuccess_error_msg _ _⟩,
   ⟨checkSuccess_ok_iff _ _, checkSuccess_error_msg _ _⟩,
   ⟨checkSuccess_ok_iff _ _, checkSuccess_error_msg _ _⟩,
   ⟨checkSuccess_ok_iff _ _, checkSuccess_error_msg _ _⟩⟩

/-- Witness for C8's amended theorem at a concrete response value: a parsed
`\x7b"success": true\x7d` makes `addApiKey` return normally. -/
theorem apiWrappers_surface_backend_failures_witness :
    addApiKey (Json.obj [("success", Json.bool true)]) = Except.ok () :=
  ((apiWrappers_surface_backend_failures
      (Json.obj [("success", Json.bool true)])).1.1).mpr
    ⟨Json.bool true, rfl, rfl⟩

/-- Modelled from the spec: the backend registry implementation (`lib.rs`)
is not part of the source tree, so `AssignmentRecord` follows section 3 of
the spec: peer identity, issued credential and issuance time. -/
structure AssignmentRecord where
  peerId : String
  credential : String
  issuedAt : Int
deriving DecidableEq, Repr

/-- Modelled from the spec: the pool/registry error taxonomy of section 7. -/
inductive RegError where
  | alreadyExists : RegError
  | notActive : RegError
  | notFound : RegError
  | noCredentialsAvailable : RegError
deriving DecidableEq, Repr

/-- Modelled from the spec: the state jointly owned by `CredentialPool` and
`AssignmentRegistry` (sections 3, 4.1, 4.2): the three credential-value
sets, the `createdAt` timestamps recorded by `add`, and the append-only
list of assignment records. -/
structure RegistryState where
  active : List String
  historical : List String
  deleted : List String
  createdAt : List (String × Int)
  records : List AssignmentRecord
deriving DecidableEq, Repr

/-- The empty state a fresh process starts from. -/
def initialRegistryState : RegistryState :=
  { active := [], historical := [], deleted := [], createdAt := [], records := [] }

/-- Modelled from the spec: `CredentialPool.add` (section 4.1) fails with
`AlreadyExists` if the value is in any of the three sets, otherwise inserts
it into Active with `createdAt = now`. -/
def addCredential (st : RegistryState) (v : String) (now : Int) :
    Except RegError RegistryState :=
  if v ∈ st.active ∨ v ∈ st.historical ∨ v ∈ st.deleted then
    Except.error RegError.alreadyExists
  else
    Except.ok { st with active := v :: st.active, createdAt := (v, now) :: st.createdAt }

/-- Modelled from the spec: `CredentialPool.retire` (section 4.1) fails with
`NotActive` unless the value is currently Active, otherwise moves it to
Historical; assignment records are untouched. -/
def retireCredential (st : RegistryState) (v : String) :
    Except RegError RegistryState :=
  if v ∈ st.active then
    Except.ok { st with active := st.active.erase v, historical := v :: st.historical }
  else
    Except.error RegError.notActive

/-- Modelled from the spec: `CredentialPool.delete` (section 4.1) fails with
`NotFound` unless the value is Active or Historical, otherwise moves it to
Deleted; existing assignment records referencing it are retained. -/
def deleteCredential (st : RegistryState) (v : String) :
    Except RegError RegistryState :=
  if v ∈ st.active then
    Except.ok { st with active := st.active.erase v, deleted := v :: st.deleted }
  else if v ∈ st.historical then
    Except.ok { st with historical := st.historical.erase v, deleted := v :: st.deleted }
  else
    Except.error RegError.notFound

/-- Modelled from the spec: `CredentialPool.selectForIssuance` (sections 4.1
and 9) draws from a deterministically ordered snapshot of the Active set
with an injectable random source, and yields nothing when Active is empty. -/
def selectForIssuance (active : List String) (rand : Nat) : Option String :=
  active.get? (rand % active.length)

/-- Modelled from the spec: `AssignmentRegistry.requestAssignment`
(section 4.2).  Step 1: an existing record for the peer is returned as is,
with no state change.  Step 2: otherwise a credential is selected; on
failure `NoCredentialsAvailable` is propagated with no record created, on
success the record is appended and the credential returned.  The whole
read-modify-write is one atomic step, matching the single serialization
point the spec requires. -/
def requestAssignment (st : RegistryState) (peerId : String) (now : Int) (rand : Nat) :
    Except RegError String × RegistryState :=
  match st.records.find? (fun r => r.peerId == peerId) with
  | some r => (Except.ok r.credential, st)
  | none =>
    match selectForIssuance st.active rand with
    | none => (Except.error RegError.noCredentialsAvailable, st)
    | some c =>
      (Except.ok c,
       { st with records := st.records ++ [{ peerId := peerId, credential := c, issuedAt := now }] })

/-- The derived peer list of a credential: the peers of exactly those
assignment records whose credential field equals it (spec section 3). -/
def assignedPeers (st : RegistryState) (c : String) : List String :=
  (st.records.filter (fun r => r.credential == c)).map (fun r => r.peerId)

/-- Repeated `requestAssignment` calls of one peer, applied in order at the
registry's serialization point; each call carries its own time and random
draw.  Returns the list of call results and the final state. -/
def runRequests : RegistryState → String → List (Int × Nat) →
    List (Except RegError String) × RegistryState
  | st, _, [] => ([], st)
  | st, p, (now, rand) :: rest =>
    let out := requestAssignment st p now rand
    let next := runRequests out.2 p rest
    (out.1 :: next.1, next.2)

/-- An interleaving of concurrent `requestAssignment` calls from arbitrary
peers: because the registry serializes every call, any interleaving is some
sequence of atomic calls. -/
def runTrace (st : RegistryState) (calls : List (String × Int × Nat)) : RegistryState :=
  calls.foldl (fun s c => (requestAssignment s c.1 c.2.1 c.2.2).2) st

/-- One mutating operation on the pool/registry state: the admin actions of
section 4.1 (also issued by the lifecycle manager of section 4.3) and a
peer request.  A failing operation leaves the state unchanged. -/
inductive AdminOp where
  | add (v : String) (now : Int) : AdminOp
  | retire (v : String) : AdminOp
  | delete (v : String) : AdminOp
  | request (p : String) (now : Int) (rand : Nat) : AdminOp
deriving DecidableEq, Repr

/-- Apply one operation, keeping the prior state when the operation fails
(errors are returned to the caller, spec section 7). -/
def applyOp (st : RegistryState) : AdminOp → RegistryState
  | AdminOp.add v now =>
    match addCredential st v now with
    | Except.ok st2 => st2
    | Except.error _ => st
  | AdminOp.retire v =>
    match retireCredential st v with
    | Except.ok st2 => st2
    | Except.error _ => st
  | AdminOp.delete v =>
    match deleteCredential st v with
    | Except.ok st2 => st2
    | Except.error _ => st
  | AdminOp.request p now rand => (requestAssignment st p now rand).2

/-- Run a sequence of operations from a given state. -/
def runOps (ops : List AdminOp) (st : RegistryState) : RegistryState :=
  ops.foldl applyOp st

/-- A state the process can actually be in: reachable from the empty
initial state by some sequence of operations. -/
def Reachable (st : RegistryState) : Prop :=
  ∃ ops, runOps ops initialRegistryState = st

lemma find?_append_of_none {α : Type} (p : α → Bool) (l1 l2 : List α)
    (h : l1.find? p = none) : (l1 ++ l2).find? p = l2.find? p := by
  induction l1 with
  | nil => rfl
  | cons a l ih =>
    cases hpa : p a with
    | true => rw [List.find?_cons_of_pos _ hpa] at h; exact absurd h (by simp)
    | false =>
      rw [List.find?_cons_of_neg _ (by simp [hpa])] at h
      rw [List.cons_append, List.find?_cons_of_neg _ (by simp [hpa])]
      exact ih h

lemma countP_eq_zero_of_find?_none {α : Type} (p : α → Bool) (l : List α)
    (h : l.find? p = none) : l.countP p = 0 := by
  rw [List.countP_eq_zero]
  intro a ha
  simpa using List.find?_eq_none.mp h a ha

lemma requestAssignment_existing (st : RegistryState) (p : String) (now : Int) (rand : Nat)
    (r : AssignmentRecord) (h : st.records.find? (fun q => q.peerId == p) = some r) :
    requestAssignment st p now rand = (Except.ok r.credential, st) := by
  simp [requestAssignment, h]

lemma runRequests_existing (st : RegistryState) (p : String) (reqs : List (Int × Nat))
    (r : AssignmentRecord) (h : st.records.find? (fun q => q.peerId == p) = some r) :
    runRequests st p reqs = (reqs.map (fun _ => Except.ok r.credential), st) := by
  induction reqs with
  | nil => rfl
  | cons req rest ih =>
    obtain ⟨now, rand⟩ := req
    simp [runRequests, requestAssignment_existing st p now rand r h, ih]

lemma selectForIssuance_of_ne_nil (active : List String) (rand : Nat) (h : active ≠ []) :
    ∃ c, selectForIssuance active rand = some c ∧ c ∈ active := by
  have hlen : 0 < active.length := List.length_pos.mpr h
  have hlt : rand % active.length < active.length := Nat.mod_lt _ hlen
  exact ⟨active.get ⟨rand % active.length, hlt⟩,
    by simp [selectForIssuance, List.get?_eq_get hlt], List.get_mem _ _ _⟩

lemma requestAssignment_new (st : RegistryState) (p : String) (now : Int) (rand : Nat)
    (c : String) (hnone : st.records.find? (fun q => q.peerId == p) = none)
    (hsel : selectForIssuance st.active rand = some c) :
    requestAssignment st p now rand =
      (Except.ok c,
       { st with records := st.records ++ [{ peerId := p, credential := c, issuedAt := now }] }) := by
  simp [requestAssignment, hnone, hsel]

/-- C1: issuance is idempotent per peer.  A call for a peer that already has
an assignment record returns exactly that record's credential and leaves the
whole state (registry and pool) unchanged; and any non-empty sequence of
calls for one peer — starting from a state where the peer either has a
record already or some credential is issuable — ends with exactly one record
for that peer, every call returning that record's credential. -/
theorem requestAssignment_idempotent (st : RegistryState) (p : String)
    (reqs : List (Int × Nat))
    (hone : st.records.countP (fun r => r.peerId == p) ≤ 1)
    (havail : (∃ r ∈ st.records, r.peerId = p) ∨ st.active ≠ [])
    (hne : reqs ≠ []) :
    (∀ now rand r, st.records.find? (fun q => q.peerId == p) = some r →
        requestAssignment st p now rand = (Except.ok r.credential, st)) ∧
    (runRequests st p reqs).2.records.countP (fun r => r.peerId == p) = 1 ∧
    (∃ c, (∀ res ∈ (runRequests st p reqs).1, res = Except.ok c) ∧
        ∃ r ∈ (runRequests st p reqs).2.records, r.peerId = p ∧ r.credential = c) := by
  refine ⟨fun now rand r h => requestAssignment_existing st p now rand r h, ?_⟩
  rcases reqs with _ | ⟨⟨now, rand⟩, rest⟩
  · exact absurd rfl hne
  by_cases hex : (st.records.find? (fun q => q.peerId == p)).isSome
  · obtain ⟨r, hr⟩ := Option.isSome_iff_exists.mp hex
    have hmem : r ∈ st.records := List.mem_of_find?_eq_some hr
    have hpr := List.find?_some hr
    have hrun := runRequests_existing st p ((now, rand) :: rest) r hr
    rw [hrun]
    have hpos : 0 < st.records.countP (fun q => q.peerId == p) :=
      List.countP_pos_iff.mpr ⟨r, hmem, hpr⟩
    refine ⟨Nat.le_antisymm hone hpos, r.credential, ?_, r, hmem, by simpa using hpr, rfl⟩
    intro res hres
    obtain ⟨q, _, hq⟩ := List.mem_map.mp hres
    exact hq.symm
  · have hnone : st.records.find? (fun q => q.peerId == p) = none :=
      Option.not_isSome_iff_eq_none.mp hex
    have hact : st.active ≠ [] := by
      rcases havail with ⟨r, hmem, hpr⟩ | hact
      · exact absurd (List.find?_isSome.mpr ⟨r, hmem, by simp [hpr]⟩) hex
      · exact hact
    obtain ⟨c, hsel, _⟩ := selectForIssuance_of_ne_nil st.active rand hact
    have hzero : st.records.countP (fun q => q.peerId == p) = 0 :=
      countP_eq_zero_of_find?_none _ _ hnone
    set rec : AssignmentRecord := { peerId := p, credential := c, issuedAt := now } with hrec
    set st2 : RegistryState := { st with records := st.records ++ [rec] } with hst2
    have hstep : requestAssignment st p now rand = (Except.ok c, st2) :=
      requestAssignment_new st p now rand c hnone hsel
    have hfind2 : st2.records.find? (fun q => q.peerId == p) = some rec := by
      show (st.records ++ [rec]).find? (fun q => q.peerId == p) = some rec
      rw [find?_append_of_none _ _ _ hnone]
      simp [hrec]
    have hrun2 := runRequests_existing st2 p rest rec hfind2
    have hrun : runRequests st p ((now, rand) :: rest) =
        (Except.ok c :: rest.map (fun _ => Except.ok rec.credential), st2) := by
      simp [runRequests, hstep, hrun2]
    rw [hrun]
    have hcount : st2.records.countP (fun q => q.peerId == p) = 1 := by
      show (st.records ++ [rec]).countP (fun q => q.peerId == p) = 1
      rw [List.countP_append, hzero]
      simp [hrec]
    refine ⟨hcount, c, ?_, rec, ?_, rfl, rfl⟩
    · intro res hres
      rcases List.mem_cons.mp hres with h | h
      · exact h
      · obtain ⟨q, _, hq⟩ := List.mem_map.mp h
        exact hq.symm
    · show rec ∈ st.records ++ [rec]
      simp

/-- Concrete state used by the C1 witness: one active credential, no
records. -/
def c1State : RegistryState :=
  { active := ["K1"], historical := [], deleted := [], createdAt := [("K1", 0)], records := [] }

/-- Witness for C1 at a concrete input: two repeated calls by `alice.os`
against a one-credential pool leave exactly one assignment record. -/
theorem requestAssignment_idempotent_witness :
    c1State.records.countP (fun r => r.peerId == "alice.os") ≤ 1 ∧
    ((∃ r ∈ c1State.records, r.peerId = "alice.os") ∨ c1State.active ≠ []) ∧
    ([((5 : Int), (0 : Nat)), (6, 1)] ≠ ([] : List (Int × Nat))) ∧
    (runRequests c1State "alice.os" [(5, 0), (6, 1)]).2.records.countP
      (fun r => r.peerId == "alice.os") = 1 :=
  ⟨by decide, Or.inr (by decide), by decide,
   (requestAssignment_idempotent c1State "alice.os" [(5, 0), (6, 1)]
      (by decide) (Or.inr (by decide)) (by decide)).2.1⟩

/-- C2: with no record for the peer and an empty Active set, a request fails
with `NoCredentialsAvailable` and the state — registry records and all pool
sets — is exactly unchanged. -/
theorem requestAssignment_empty_pool (st : RegistryState) (p : String) (now : Int) (rand : Nat)
    (hno : ∀ r ∈ st.records, r.peerId ≠ p) (hempty : st.active = []) :
    requestAssignment st p now rand = (Except.error RegError.noCredentialsAvailable, st) := by
  have hfind : st.records.find? (fun q => q.peerId == p) = none := by
    rw [List.find?_eq_none]
    intro r hr
    simpa using hno r hr
  have hsel : selectForIssuance st.active rand = none := by
    rw [selectForIssuance, hempty]
    rfl
  simp [requestAssignment, hfind, hsel]

/-- Concrete state used by the C2 witness: an exhausted pool (one historical
credential, nothing active) with one unrelated record. -/
def c2State : RegistryState :=
  { active := [], historical := ["K0"], deleted := [], createdAt := [("K0", 0)],
    records := [{ peerId := "bob.os", credential := "K0", issuedAt := 1 }] }

/-- Witness for C2 at a concrete input: `carol.os` requesting against an
empty Active set fails with `NoCredentialsAvailable` and changes nothing. -/
theorem requestAssignment_empty_pool_witness :
    (∀ r ∈ c2State.records, r.peerId ≠ "carol.os") ∧ c2State.active = [] ∧
    requestAssignment c2State "carol.os" 7 3 =
      (Except.error RegError.noCredentialsAvailable, c2State) :=
  ⟨by decide, rfl, requestAssignment_empty_pool c2State "carol.os" 7 3 (by decide) rfl⟩

lemma requestAssignment_atMostOne_step (st : RegistryState) (p : String) (now : Int)
    (rand : Nat) (hinv : ∀ q, st.records.countP (fun r => r.peerId == q) ≤ 1) (q : String) :
    (requestAssignment st p now rand).2.records.countP (fun r => r.peerId == q) ≤ 1 := by
  unfold requestAssignment
  cases hf : st.records.find? (fun r => r.peerId == p) with
  | some r => simpa using hinv q
  | none =>
    cases hs : selectForIssuance st.active rand with
    | none => simpa using hinv q
    | some c =>
      simp only
      rw [List.countP_append]
      by_cases hpq : p = q
      · subst hpq
        rw [countP_eq_zero_of_find?_none _ _ hf]
        simp
      · have : ((({ peerId := p, credential := c, issuedAt := now } :
            AssignmentRecord).peerId == q) : Bool) = false := by
          simpa using hpq
        simpa [this] using hinv q

lemma requestAssignment_state_of_empty (st : RegistryState) (p : String) (now : Int)
    (rand : Nat) (h : st.active = []) : (requestAssignment st p now rand).2 = st := by
  unfold requestAssignment
  cases hf : st.records.find? (fun r => r.peerId == p) with
  | some r => rfl
  | none =>
    have hsel : selectForIssuance st.active rand = none := by
      rw [selectForIssuance, h]
      rfl
    rw [hsel]

/-- C6: the registry is a single serialization point, so any interleaving of
concurrent calls is some sequence of atomic `requestAssignment` steps.
Along every such sequence, a peer can never end up with two assignment
records (two same-peer requests can never both pass the no-record-yet
check), and once the Active pool is exhausted no call changes the state at
all — no selection ever reports availability against an empty pool. -/
theorem requestAssignment_linearizable (st : RegistryState)
    (calls : List (String × Int × Nat))
    (hinv : ∀ q, st.records.countP (fun r => r.peerId == q) ≤ 1) :
    (∀ q, (runTrace st calls).records.countP (fun r => r.peerId == q) ≤ 1) ∧
    (st.active = [] → runTrace st calls = st) := by
  induction calls generalizing st with
  | nil => exact ⟨hinv, fun _ => rfl⟩
  | cons c rest ih =>
    have hstep := requestAssignment_atMostOne_step st c.1 c.2.1 c.2.2 hinv
    have hrest := ih (requestAssignment st c.1 c.2.1 c.2.2).2 hstep
    refine ⟨hrest.1, ?_⟩
    intro hempty
    have hst : (requestAssignment st c.1 c.2.1 c.2.2).2 = st :=
      requestAssignment_state_of_empty st c.1 c.2.1 c.2.2 hempty
    show runTrace (requestAssignment st c.1 c.2.1 c.2.2).2 rest = st
    rw [hst]
    exact (ih st hinv).2 hempty

/-- Concrete state used by the C6 witness: one active credential, no
records. -/
def c6State : RegistryState :=
  { active := ["K1"], historical := [], deleted := [], createdAt := [("K1", 0)], records := [] }

/-- Witness for C6 at a concrete input: an interleaving of three calls, two
of them from the same peer, leaves that peer with at most one record. -/
theorem requestAssignment_linearizable_witness :
    (∀ q, c6State.records.countP (fun r => r.peerId == q) ≤ 1) ∧
    (runTrace c6State [("p1.os", 1, 0), ("p2.os", 2, 1), ("p1.os", 3, 2)]).records.countP
      (fun r => r.peerId == "p1.os") ≤ 1 :=
  ⟨fun _ => Nat.zero_le 1,
   (requestAssignment_linearizable c6State [("p1.os", 1, 0), ("p2.os", 2, 1), ("p1.os", 3, 2)]
      (fun _ => Nat.zero_le 1)).1 "p1.os"⟩

/-- The pool-state invariant: each of the three credential sets is
duplicate-free and the sets are pairwise disjoint. -/
def PoolInv (st : RegistryState) : Prop :=
  st.active.Nodup ∧ st.historical.Nodup ∧ st.deleted.Nodup ∧
  (∀ v, v ∈ st.active → v ∉ st.historical) ∧
  (∀ v, v ∈ st.active → v ∉ st.deleted) ∧
  (∀ v, v ∈ st.historical → v ∉ st.deleted)

lemma poolInv_initial : PoolInv initialRegistryState := by
  simp [PoolInv, initialRegistryState]

lemma requestAssignment_pool_eq (st : RegistryState) (p : String) (now : Int) (rand : Nat) :
    (requestAssignment st p now rand).2.active = st.active ∧
    (requestAssignment st p now rand).2.historical = st.historical ∧
    (requestAssignment st p now rand).2.deleted = st.deleted := by
  unfold requestAssignment
  cases hf : st.records.find? (fun r => r.peerId == p) with
  | some r => exact ⟨rfl, rfl, rfl⟩
  | none =>
    cases hs : selectForIssuance st.active rand with
    | none => exact ⟨rfl, rfl, rfl⟩
    | some c => exact ⟨rfl, rfl, rfl⟩

lemma poolInv_applyOp (st : RegistryState) (op : AdminOp) (h : PoolInv st) :
    PoolInv (applyOp st op) := by
  obtain ⟨hna, hnh, hnd, hah, had, hhd⟩ := h
  cases op with
  | add v now =>
    show PoolInv (match addCredential st v now with
      | Except.ok st2 => st2
      | Except.error _ => st)
    unfold addCredential
    by_cases hv : v ∈ st.active ∨ v ∈ st.historical ∨ v ∈ st.deleted
    · simp only [hv, if_true]
      exact ⟨hna, hnh, hnd, hah, had, hhd⟩
    · push_neg at hv
      obtain ⟨hv1, hv2, hv3⟩ := hv
      simp only [hv1, hv2, hv3, or_self, if_false, false_or]
      refine ⟨List.nodup_cons.mpr ⟨hv1, hna⟩, hnh, hnd, ?_, ?_, hhd⟩
      · intro u hu
        rcases List.mem_cons.mp hu with rfl | hu2
        · exact hv2
        · exact hah u hu2
      · intro u hu
        rcases List.mem_cons.mp hu with rfl | hu2
        · exact hv3
        · exact had u hu2
  | retire v =>
    show PoolInv (match retireCredential st v with
      | Except.ok st2 => st2
      | Except.error _ => st)
    unfold retireCredential
    by_cases hv : v ∈ st.active
    · simp only [hv, if_true]
      refine ⟨hna.erase v, List.nodup_cons.mpr ⟨hah v hv, hnh⟩, hnd, ?_, ?_, ?_⟩
      · intro u hu
        have hu2 : u ∈ st.active := List.mem_of_mem_erase hu
        have hune : u ≠ v := ((List.Nodup.mem_erase_iff hna).mp hu).1
        intro hc
        rcases List.mem_cons.mp hc with rfl | hc2
        · exact hune rfl
        · exact hah u hu2 hc2
      · intro u hu
        exact had u (List.mem_of_mem_erase hu)
      · intro u hu
        rcases List.mem_cons.mp hu with rfl | hu2
        · exact had u hv
        · exact hhd u hu2
    · simp only [hv, if_false]
      exact ⟨hna, hnh, hnd, hah, had, hhd⟩
  | delete v =>
    show PoolInv (match deleteCredential st v with
      | Except.ok st2 => st2
      | Except.error _ => st)
    unfold deleteCredential
    by_cases hv : v ∈ st.active
    · simp only [hv, if_true]
      refine ⟨hna.erase v, hnh, List.nodup_cons.mpr ⟨had v hv, hnd⟩, ?_, ?_, ?_⟩
      · intro u hu
        exact hah u (List.mem_of_mem_erase hu)
      · intro u hu
        have hu2 : u ∈ st.active := List.mem_of_mem_erase hu
        have hune : u ≠ v := ((List.Nodup.mem_erase_iff hna).mp hu).1
        intro hc
        rcases List.mem_cons.mp hc with rfl | hc2
        · exact hune rfl
        · exact had u hu2 hc2
      · intro u hu
        intro hc
        rcases List.mem_cons.mp hc with rfl | hc2
        · exact hah u hv hu
        · exact hhd u hu hc2
    · by_cases hv2 : v ∈ st.historical
      · simp only [hv, hv2, if_true, if_false]
        refine ⟨hna, hnh.erase v, List.nodup_cons.mpr ⟨hhd v hv2, hnd⟩, ?_, ?_, ?_⟩
        · intro u hu hc
          exact hah u hu (List.mem_of_mem_erase hc)
        · intro u hu
          intro hc
          rcases List.mem_cons.mp hc with rfl | hc2
          · exact hv hu
          · exact had u hu hc2
        · intro u hu
          have hu2 : u ∈ st.historical := List.mem_of_mem_erase hu
          have hune : u ≠ v := ((List.Nodup.mem_erase_iff hnh).mp hu).1
          intro hc
          rcases List.mem_cons.mp hc with rfl | hc2
          · exact hune rfl
          · exact hhd u hu2 hc2
      · simp only [hv, hv2, if_false]
        exact ⟨hna, hnh, hnd, hah, had, hhd⟩
  | request p now rand =>
    obtain ⟨ha, hh, hd⟩ := requestAssignment_pool_eq st p now rand
    show PoolInv (requestAssignment st p now rand).2
    rw [PoolInv, ha, hh, hd]
    exact ⟨hna, hnh, hnd, hah, had, hhd⟩

lemma poolInv_runOps (ops : List AdminOp) (st : RegistryState) (h : PoolInv st) :
    PoolInv (runOps ops st) := by
  induction ops generalizing st with
  | nil => exact h
  | cons op rest ih => exact ih (applyOp st op) (poolInv_applyOp st op h)

lemma reachable_poolInv (st : RegistryState) (h : Reachable st) : PoolInv st := by
  obtain ⟨ops, hops⟩ := h
  rw [← hops]
  exact poolInv_runOps ops initialRegistryState poolInv_initial

/-- C3: the credential lifecycle is monotone and the state sets stay
disjoint.  In every reachable state each credential value is in at most one
of the Active, Historical and Deleted sets; no single operation can move a
value from Historical back into Active, nor remove a value from Deleted;
and a second `retire` of the same value fails with `NotActive`. -/
theorem credentialLifecycle_monotone (st : RegistryState) (hreach : Reachable st) :
    (∀ v, ¬(v ∈ st.active ∧ v ∈ st.historical) ∧ ¬(v ∈ st.active ∧ v ∈ st.deleted) ∧
        ¬(v ∈ st.historical ∧ v ∈ st.deleted)) ∧
    (∀ op v, v ∈ st.historical → v ∉ (applyOp st op).active) ∧
    (∀ op v, v ∈ st.deleted → v ∈ (applyOp st op).deleted) ∧
    (∀ v st2, retireCredential st v = Except.ok st2 →
        retireCredential st2 v = Except.error RegError.notActive) := by
  obtain ⟨hna, hnh, hnd, hah, had, hhd⟩ := reachable_poolInv st hreach
  refine ⟨?_, ?_, ?_, ?_⟩
  · intro v
    exact ⟨fun hc => hah v hc.1 hc.2, fun hc => had v hc.1 hc.2, fun hc => hhd v hc.1 hc.2⟩
  · intro op v hv
    have hva : v ∉ st.active := fun hc => hah v hc hv
    cases op with
    | add u now =>
      show v ∉ (match addCredential st u now with
        | Except.ok st2 => st2
        | Except.error _ => st).active
      unfold addCredential
      by_cases hu : u ∈ st.active ∨ u ∈ st.historical ∨ u ∈ st.deleted
      · simp only [hu, if_true]
        exact hva
      · push_neg at hu
        obtain ⟨h1, h2, h3⟩ := hu
        simp only [h1, h2, h3, or_self, if_false, false_or]
        intro hc
        rcases List.mem_cons.mp hc with rfl | hc2
        · exact h2 hv
        · exact hva hc2
    | retire u =>
      show v ∉ (match retireCredential st u with
        | Except.ok st2 => st2
        | Except.error _ => st).active
      unfold retireCredential
      by_cases hu : u ∈ st.active
      · simp only [hu, if_true]
        exact fun hc => hva (List.mem_of_mem_erase hc)
      · simp only [hu, if_false]
        exact hva
    | delete u =>
      show v ∉ (match deleteCredential st u with
        | Except.ok st2 => st2
        | Except.error _ => st).active
      unfold deleteCredential
      by_cases hu : u ∈ st.active
      · simp only [hu, if_true]
        exact fun hc => hva (List.mem_of_mem_erase hc)
      · by_cases hu2 : u ∈ st.historical
        · simp only [hu, hu2, if_true, if_false]
          exact hva
        · simp only [hu, hu2, if_false]
          exact hva
    | request p now rand =>
      show v ∉ (requestAssignment st p now rand).2.active
      rw [(requestAssignment_pool_eq st p now rand).1]
      exact hva
  · intro op v hv
    cases op with
    | add u now =>
      show v ∈ (match addCredential st u now with
        | Except.ok st2 => st2
        | Except.error _ => st).deleted
      unfold addCredential
      by_cases hu : u ∈ st.active ∨ u ∈ st.historical ∨ u ∈ st.deleted
      · simp only [hu, if_true]
        exact hv
      · push_neg at hu
        obtain ⟨h1, h2, h3⟩ := hu
        simp only [h1, h2, h3, or_self, if_false, false_or]
        exact hv
    | retire u =>
      show v ∈ (match retireCredential st u with
        | Except.ok st2 => st2
        | Except.error _ => st).deleted
      unfold retireCredential
      by_cases hu : u ∈ st.active
      · simp only [hu, if_true]
        exact hv
      · simp only [hu, if_false]
        exact hv
    | delete u =>
      show v ∈ (match deleteCredential st u with
        | Except.ok st2 => st2
        | Except.error _ => st).deleted
      unfold deleteCredential
      by_cases hu : u ∈ st.active
      · simp only [hu, if_true]
        exact List.mem_cons_of_mem u hv
      · by_cases hu2 : u ∈ st.historical
        · simp only [hu, hu2, if_true, if_false]
          exact List.mem_cons_of_mem u hv
        · simp only [hu, hu2, if_false]
          exact hv
    | request p now rand =>
      show v ∈ (requestAssignment st p now rand).2.deleted
      rw [(requestAssignment_pool_eq st p now rand).2.2]
      exact hv
  · intro v st2 h
    unfold retireCredential at h ⊢
    by_cases hv : v ∈ st.active
    · simp only [hv, if_true] at h
      injection h with h2
      have hne : v ∉ st2.active := by
        rw [← h2]
        exact fun hc => ((List.Nodup.mem_erase_iff hna).mp hc).1 rfl
      simp only [hne, if_false]
    · simp only [hv, if_false] at h
      exact absurd h (by simp)

/-- The operation sequence behind the C3 witness: add one credential, then
retire it. -/
def c3Ops : List AdminOp := [AdminOp.add "K1" 0, AdminOp.retire "K1"]

/-- The concrete reachable state of the C3 witness. -/
def c3State : RegistryState := runOps c3Ops initialRegistryState

/-- Witness for C3 at a concrete reachable state: after adding and retiring
`K1`, the value is not simultaneously Historical and Deleted. -/
theorem credentialLifecycle_monotone_witness :
    Reachable c3State ∧ ¬("K1" ∈ c3State.historical ∧ "K1" ∈ c3State.deleted) :=
  ⟨⟨c3Ops, rfl⟩, ((credentialLifecycle_monotone c3State ⟨c3Ops, rfl⟩).1 "K1").2.2⟩

/-- Modelled from the spec: `CostSample` (section 3); the aggregator's merge
is in the backend `lib.rs`, which is not part of the source tree, so the
merge below follows section 4.4 of the spec. -/
structure CostSample where
  credential : String
  bucketStart : Int
  bucketEnd : Int
  amount : Rat
  currency : String
  description : String
deriving DecidableEq, Repr

/-- The dedup key of a cost sample: `(credential, bucketStart, description)`
(spec section 3). -/
def sampleKey (s : CostSample) : String × Int × String :=
  (s.credential, s.bucketStart, s.description)

/-- Whether some stored sample already carries the given key. -/
def keyPresent (store : List CostSample) (k : String × Int × String) : Bool :=
  store.any (fun t => sampleKey t == k)

/-- Modelled from the spec: inserting one report row (section 4.4 Merging):
a row whose key already exists is skipped, never overwritten; otherwise the
row is appended. -/
def insertSample (store : List CostSample) (s : CostSample) : List CostSample :=
  if keyPresent store (sampleKey s) then store else store ++ [s]

/-- Modelled from the spec: merging a fetched report window row by row
(section 4.4 Merging). -/
def mergeReport (store : List CostSample) (report : List CostSample) : List CostSample :=
  report.foldl insertSample store

/-- A credential's cumulative total over the stored samples. -/
def cumulativeTotal (store : List CostSample) (c : String) : Rat :=
  ((store.filter (fun s => s.credential == c)).map (fun s => s.amount)).sum

lemma insertSample_of_present (store : List CostSample) (s : CostSample)
    (h : keyPresent store (sampleKey s) = true) : insertSample store s = store := by
  simp [insertSample, h]

lemma keyPresent_insertSample_mono (store : List CostSample) (s : CostSample)
    (k : String × Int × String) (h : keyPresent store k = true) :
    keyPresent (insertSample store s) k = true := by
  unfold insertSample
  by_cases hp : keyPresent store (sampleKey s) = true
  · simp [hp, h]
  · simp only [hp, if_false, Bool.false_eq_true]
    unfold keyPresent at h ⊢
    rw [List.any_append]
    simp [h]

lemma keyPresent_insertSample_self (store : List CostSample) (s : CostSample) :
    keyPresent (insertSample store s) (sampleKey s) = true := by
  unfold insertSample
  by_cases hp : keyPresent store (sampleKey s) = true
  · simp [hp]
  · simp only [hp, if_false, Bool.false_eq_true]
    unfold keyPresent
    rw [List.any_append]
    simp

lemma keyPresent_mergeReport_mono (store report : List CostSample)
    (k : String × Int × String) (h : keyPresent store k = true) :
    keyPresent (mergeReport store report) k = true := by
  induction report generalizing store with
  | nil => exact h
  | cons a rest ih => exact ih (insertSample store a) (keyPresent_insertSample_mono store a k h)

lemma keyPresent_mergeReport (store report : List CostSample) (r : CostSample)
    (h : r ∈ report) : keyPresent (mergeReport store report) (sampleKey r) = true := by
  induction report generalizing store with
  | nil => exact absurd h (List.not_mem_nil r)
  | cons a rest ih =>
    rcases List.mem_cons.mp h with rfl | h2
    · exact keyPresent_mergeReport_mono (insertSample store r) rest (sampleKey r)
        (keyPresent_insertSample_self store r)
    · exact ih (insertSample store a) h2

lemma mergeReport_of_allPresent (store report : List CostSample)
    (h : ∀ r ∈ report, keyPresent store (sampleKey r) = true) :
    mergeReport store report = store := by
  induction report with
  | nil => rfl
  | cons a rest ih =>
    show mergeReport (insertSample store a) rest = store
    rw [insertSample_of_present store a (h a (List.mem_cons_self a rest))]
    exact ih (fun r hr => h r (List.mem_cons_of_mem a hr))

/-- C4: merging a billing report window is idempotent.  A row whose key is
already stored is skipped, never overwritten, and merging the identical
report a second time leaves the stored samples — and hence every
credential's cumulative total — exactly unchanged. -/
theorem mergeReport_idempotent (store report : List CostSample) :
    (∀ s, keyPresent store (sampleKey s) = true → insertSample store s = store) ∧
    mergeReport (mergeReport store report) report = mergeReport store report ∧
    (∀ c, cumulativeTotal (mergeReport (mergeReport store report) report) c =
        cumulativeTotal (mergeReport store report) c) := by
  have hmerge : mergeReport (mergeReport store report) report = mergeReport store report :=
    mergeReport_of_allPresent (mergeReport store report) report
      (fun r hr => keyPresent_mergeReport store report r hr)
  exact ⟨fun s h => insertSample_of_present store s h, hmerge, fun c => by rw [hmerge]⟩

/-- The concrete 5.00-dollar report row of the C4 witness. -/
def c4Sample : CostSample :=
  { credential := "K1", bucketStart := 100, bucketEnd := 200, amount := 5,
    currency := "USD", description := "Input Tokens" }

/-- Witness for C4 at a concrete input: a single 5.00 row merged twice into
an empty store totals 5.00, not 10.00. -/
theorem mergeReport_idempotent_witness :
    cumulativeTotal (mergeReport ([] : List CostSample) [c4Sample]) "K1" = 5 ∧
    cumulativeTotal (mergeReport (mergeReport [] [c4Sample]) [c4Sample]) "K1" =
      cumulativeTotal (mergeReport [] [c4Sample]) "K1" :=
  ⟨by simp [cumulativeTotal, mergeReport, insertSample, keyPresent, sampleKey, c4Sample],
   (mergeReport_idempotent [] [c4Sample]).2.2 "K1"⟩

/-- Modelled from the spec: the aggregator-owned state — the stored cost
samples and `AggregationCheckpoint.lastSuccessfulBucketEnd` (section 3). -/
structure AggregatorState where
  samples : List CostSample
  lastSuccessfulBucketEnd : Int
deriving DecidableEq, Repr

/-- Modelled from the spec: the report window a cycle requests from the
external billing client: `[checkpoint.lastSuccessfulBucketEnd, now)`
(section 4.4). -/
def reportWindow (st : AggregatorState) (now : Int) : Int × Int :=
  (st.lastSuccessfulBucketEnd, now)

/-- Modelled from the spec: billing-client failures (section 7). -/
inductive FetchError where
  | remoteUnavailable : FetchError
  | remoteTimeout : FetchError
deriving DecidableEq, Repr

/-- Modelled from the spec: the bounded-retry fetch of one cycle — the
outcomes of the attempts up to the configured cap, in order; the first
success wins, and if every attempt fails the cycle aborts with an error
(section 4.4). -/
def resolveFetch : List (Except FetchError (List CostSample)) →
    Except FetchError (List CostSample)
  | [] => Except.error FetchError.remoteUnavailable
  | Except.ok report :: _ => Except.ok report
  | Except.error _ :: rest => resolveFetch rest

/-- Modelled from the spec: one aggregation cycle (section 4.4).  On full
success the fetched report is merged and the checkpoint advances to the
window's end, in one atomic state change; on failure — retry budget
exhausted, or a crash before the atomic merge-and-advance commits — the
prior state, checkpoint included, is kept untouched. -/
def runCycle (st : AggregatorState) (now : Int)
    (attempts : List (Except FetchError (List CostSample))) : AggregatorState :=
  match resolveFetch attempts with
  | Except.error _ => st
  | Except.ok report =>
    { samples := mergeReport st.samples report, lastSuccessfulBucketEnd := now }

lemma resolveFetch_of_allFail (attempts : List (Except FetchError (List CostSample)))
    (h : ∀ a ∈ attempts, ∃ e, a = Except.error e) :
    ∃ e, resolveFetch attempts = Except.error e := by
  induction attempts with
  | nil => exact ⟨FetchError.remoteUnavailable, rfl⟩
  | cons a rest ih =>
    obtain ⟨e, he⟩ := h a (List.mem_cons_self a rest)
    subst he
    exact ih (fun b hb => h b (List.mem_cons_of_mem _ hb))

/-- C5: the aggregation checkpoint advances only on full success.  If every
fetch attempt of a cycle fails (the bounded retry budget is exhausted), the
cycle leaves the whole aggregator state — checkpoint included — unchanged,
so the next cycle requests a window starting at exactly the same
`lastSuccessfulBucketEnd`. -/
theorem checkpoint_unchanged_on_failure (st : AggregatorState) (now : Int)
    (attempts : List (Except FetchError (List CostSample)))
    (hfail : ∀ a ∈ attempts, ∃ e, a = Except.error e) :
    runCycle st now attempts = st ∧
    (runCycle st now attempts).lastSuccessfulBucketEnd = st.lastSuccessfulBucketEnd ∧
    (∀ now2, reportWindow (runCycle st now attempts) now2 = reportWindow st now2) := by
  obtain ⟨e, he⟩ := resolveFetch_of_allFail attempts hfail
  have hrun : runCycle st now attempts = st := by
    unfold runCycle
    rw [he]
  exact ⟨hrun, by rw [hrun], fun now2 => by rw [hrun]⟩

/-- The all-failing attempt list of the C5 witness. -/
def c5Attempts : List (Except FetchError (List CostSample)) :=
  [Except.error FetchError.remoteTimeout, Except.error FetchError.remoteUnavailable]

/-- The concrete aggregator state of the C5 witness. -/
def c5State : AggregatorState := { samples := [c4Sample], lastSuccessfulBucketEnd := 200 }

/-- Witness for C5 at a concrete input: a cycle whose two attempts both fail
leaves the state and checkpoint untouched. -/
theorem checkpoint_unchanged_on_failure_witness :
    (∀ a ∈ c5Attempts, ∃ e, a = Except.error e) ∧ runCycle c5State 300 c5Attempts = c5State :=
  ⟨by
    intro a ha
    rcases List.mem_cons.mp ha with rfl | ha2
    · exact ⟨FetchError.remoteTimeout, rfl⟩
    · rcases List.mem_singleton.mp ha2 with rfl
      exact ⟨FetchError.remoteUnavailable, rfl⟩,
   (checkpoint_unchanged_on_failure c5State 300 c5Attempts (by
      intro a ha
      rcases List.mem_cons.mp ha with rfl | ha2
      · exact ⟨FetchError.remoteTimeout, rfl⟩
      · rcases List.mem_singleton.mp ha2 with rfl
        exact ⟨FetchError.remoteUnavailable, rfl⟩)).1⟩

/-- `CostRecord` of `ui/src/types/api-key-manager.ts`: one dated, attributed
cost row as consumed by the dashboard chart. -/
structure CostRecord where
  timestamp : Int
  amount : Rat
  currency : String
  description : String
deriving DecidableEq, Repr

/-- `NodeAssignment` as consumed by `src/ui/src/App.tsx`, whose
`prepareChartData` reads the camelCase fields `issuedAt` and `nodeId` of the
generated caller-utils binding. -/
structure NodeAssignment where
  nodeId : String
  apiKey : String
  issuedAt : Int
deriving DecidableEq, Repr

/-- `NodeAssignment` of `ui/src/types/api-key-manager.ts` as consumed by the
revised dashboard in `src/unnamed/part_002`, which reads the snake_case
fields `issued_at` and `node_id`. -/
structure NodeAssignmentSnake where
  node_id : String
  api_key : String
  issued_at : Int
deriving DecidableEq, Repr

/-- The field renaming between the two `NodeAssignment` shapes. -/
def NodeAssignment.toSnake (n : NodeAssignment) : NodeAssignmentSnake :=
  { node_id := n.nodeId, api_key := n.apiKey, issued_at := n.issuedAt }

/-- `ChartDataPoint` of `ui/src/types/api-key-manager.ts` as produced by
`prepareChartData`.  The `date` field — a locale-dependent display rendering
of `timestamp` carrying no further information — is not modelled.
`newNodes := none` models the field left `undefined`. -/
structure ChartDataPoint where
  timestamp : Int
  totalCost : Rat
  currency : String
  newNodes : Option (List String)
deriving DecidableEq, Repr

/-- `Map.get` of the JS `Map` keyed by timestamps: the value at the first
matching binding. -/
def mapGet (m : List (Int × Rat)) (k : Int) : Option Rat :=
  (m.find? (fun p => p.1 == k)).map (fun p => p.2)

/-- `Map.set` of the JS `Map`: replace the value at an existing key in
place, otherwise append the new binding. -/
def mapSet (m : List (Int × Rat)) (k : Int) (v : Rat) : List (Int × Rat) :=
  if m.any (fun p => p.1 == k) then
    m.map (fun p => if p.1 == k then (k, v) else p)
  else
    m ++ [(k, v)]

/-- The `costsByTime` accumulation loop of `prepareChartData`
(`src/ui/src/App.tsx` lines 342-346 and identically
`src/unnamed/part_002` lines 486-490): for each record, add its amount to
the bucket of its timestamp. -/
def groupCosts : List CostRecord → List (Int × Rat) → List (Int × Rat)
  | [], m => m
  | r :: rs, m =>
    groupCosts rs (mapSet m r.timestamp ((mapGet m r.timestamp).getD 0 + r.amount))

/-- The cumulative fold of `prepareChartData` over the sorted timestamps
(`src/ui/src/App.tsx` lines 349-369): accumulate the running total and
attach the nodes whose issuance time is within 3600 seconds of the
timestamp; `newNodes` stays undefined when no node qualifies. -/
def buildPoints (m : List (Int × Rat)) (nodeHistory : List NodeAssignment) :
    List Int → Rat → List ChartDataPoint
  | [], _ => []
  | t :: ts, cum =>
    let cost := (mapGet m t).getD 0
    let cum2 := cum + cost
    let newNodes := (nodeHistory.filter (fun n => (n.issuedAt - t).natAbs < 3600)).map
      (fun n => n.nodeId)
    { timestamp := t, totalCost := cum2, currency := "USD",
      newNodes := if newNodes.length > 0 then some newNodes else none } ::
      buildPoints m nodeHistory ts cum2

/-- `prepareChartData` of `src/ui/src/App.tsx` (lines 335-372): empty input
gives an empty chart; otherwise group the records by timestamp, sort the
distinct timestamps ascending, and fold into cumulative chart points. -/
def prepareChartData (costs : List CostRecord) (nodeHistory : List NodeAssignment) :
    List ChartDataPoint :=
  if costs.isEmpty then []
  else
    let costsByTime := groupCosts costs []
    let sortedTimestamps := (costsByTime.map (fun p => p.1)).mergeSort
    buildPoints costsByTime nodeHistory sortedTimestamps 0

/-- The cumulative fold of the revised `prepareChartData` of
`src/unnamed/part_002` (lines 497-513), reading the snake_case assignment
fields. -/
def buildPointsSnake (m : List (Int × Rat)) (nodeHistory : List NodeAssignmentSnake) :
    List Int → Rat → List ChartDataPoint
  | [], _ => []
  | t :: ts, cum =>
    let cost := (mapGet m t).getD 0
    let cum2 := cum + cost
    let newNodes := (nodeHistory.filter (fun n => (n.issued_at - t).natAbs < 3600)).map
      (fun n => n.node_id)
    { timestamp := t, totalCost := cum2, currency := "USD",
      newNodes := if newNodes.length > 0 then some newNodes else none } ::
      buildPointsSnake m nodeHistory ts cum2

/-- The revised `prepareChartData` of `src/unnamed/part_002`
(lines 479-516). -/
def prepareChartDataSnake (costs : List CostRecord)
    (nodeHistory : List NodeAssignmentSnake) : List ChartDataPoint :=
  if costs.isEmpty then []
  else
    let costsByTime := groupCosts costs []
    let sortedTimestamps := (costsByTime.map (fun p => p.1)).mergeSort
    buildPointsSnake costsByTime nodeHistory sortedTimestamps 0

lemma filter_map_toSnake (h : List NodeAssignment) (t : Int) :
    ((h.map NodeAssignment.toSnake).filter
        (fun n => (n.issued_at - t).natAbs < 3600)).map (fun n => n.node_id) =
      (h.filter (fun n => (n.issuedAt - t).natAbs < 3600)).map (fun n => n.nodeId) := by
  induction h with
  | nil => rfl
  | cons a l ih =>
    by_cases hc : (a.issuedAt - t).natAbs < 3600
    · simp only [List.map_cons, List.filter_cons, NodeAssignment.toSnake]
      simp only [hc, decide_True, if_true]
      simp only [List.map_cons]
      rw [ih]
    · simp only [List.map_cons, List.filter_cons, NodeAssignment.toSnake]
      simp only [hc, decide_False, if_false]
      exact ih

lemma buildPointsSnake_eq (m : List (Int × Rat)) (h : List NodeAssignment)
    (ts : List Int) (cum : Rat) :
    buildPointsSnake m (h.map NodeAssignment.toSnake) ts cum = buildPoints m h ts cum := by
  induction ts generalizing cum with
  | nil => rfl
  | cons t rest ih =>
    simp only [buildPointsSnake, buildPoints, filter_map_toSnake h t]
    rw [ih]

/-- C10: the two versions of `prepareChartData` — `src/ui/src/App.tsx` and
the revised `src/unnamed/part_002` — are functionally equivalent: on the
same cost records and on node-assignment lists identical up to the
camelCase/snake_case field renaming, they produce identical chart points
(same timestamp, totalCost, currency and newNodes at every position). -/
theorem prepareChartData_versions_equivalent (costs : List CostRecord)
    (nodeHistory : List NodeAssignment) :
    prepareChartDataSnake costs (nodeHistory.map NodeAssignment.toSnake) =
      prepareChartData costs nodeHistory := by
  unfold prepareChartDataSnake prepareChartData
  by_cases hc : costs.isEmpty
  · simp [hc]
  · simp only [hc, if_false, Bool.false_eq_true]
    exact buildPointsSnake_eq _ _ _ _

/-- The key list of the modelled JS `Map`, in insertion order. -/
def keysOf (m : List (Int × Rat)) : List Int := m.map (fun p => p.1)

/-- The bucket value at a key, zero when absent — `costsByTime.get(t) || 0`. -/
def getAt (m : List (Int × Rat)) (k : Int) : Rat := (mapGet m k).getD 0

/-- The total amount of the records carrying exactly timestamp `k`. -/
def sumAt (costs : List CostRecord) (k : Int) : Rat :=
  ((costs.filter (fun r => r.timestamp == k)).map (fun r => r.amount)).sum

/-- The total amount of the records with timestamp at most `T`. -/
def sumLe (costs : List CostRecord) (T : Int) : Rat :=
  ((costs.filter (fun r => decide (r.timestamp ≤ T))).map (fun r => r.amount)).sum

/-- The `newNodes` annotation of the chart point at timestamp `t`. -/
def newNodesAt (h : List NodeAssignment) (t : Int) : Option (List String) :=
  let ns := (h.filter (fun n => (n.issuedAt - t).natAbs < 3600)).map (fun n => n.nodeId)
  if ns.length > 0 then some ns else none

lemma keyMem_iff (m : List (Int × Rat)) (k : Int) :
    m.any (fun p => p.1 == k) = true ↔ k ∈ keysOf m := by
  simp only [keysOf, List.any_eq_true, List.mem_map, beq_iff_eq]

lemma find?_replace_self (m : List (Int × Rat)) (k : Int) (v : Rat)
    (h : m.any (fun p => p.1 == k) = true) :
    (m.map (fun p => if p.1 == k then (k, v) else p)).find? (fun p => p.1 == k) =
      some (k, v) := by
  induction m with
  | nil => simp at h
  | cons p rest ih =>
    by_cases hp : (p.1 == k) = true
    · simp only [List.map_cons, hp, if_true]
      simp only [List.find?_cons, show ((k, v).1 == k) = true by simp]
    · have hp2 : (p.1 == k) = false := by simpa using hp
      simp only [List.map_cons, hp2, Bool.false_eq_true, if_false]
      simp only [List.find?_cons, hp2]
      apply ih
      rw [List.any_cons] at h
      simpa [hp2] using h

lemma find?_replace_ne (m : List (Int × Rat)) (k : Int) (v : Rat) (k2 : Int)
    (hne : k2 ≠ k) :
    (m.map (fun p => if p.1 == k then (k, v) else p)).find? (fun p => p.1 == k2) =
      m.find? (fun p => p.1 == k2) := by
  induction m with
  | nil => rfl
  | cons p rest ih =>
    by_cases hp : (p.1 == k) = true
    · have hpk : p.1 = k := by simpa using hp
      have hv : (((k, v) : Int × Rat).1 == k2) = false := by simpa using Ne.symm hne
      have hpor : (p.1 == k2) = false := by
        rw [hpk]
        simpa using Ne.symm hne
      simp only [List.map_cons, hp, if_true]
      simp only [List.find?_cons, hv, hpor]
      exact ih
    · have hp2 : (p.1 == k) = false := by simpa using hp
      simp only [List.map_cons, hp2, Bool.false_eq_true, if_false]
      cases hq : (p.1 == k2) with
      | true => simp only [List.find?_cons, hq]
      | false =>
        simp only [List.find?_cons, hq]
        exact ih

lemma mapGet_mapSet_self (m : List (Int × Rat)) (k : Int) (v : Rat) :
    mapGet (mapSet m k v) k = some v := by
  unfold mapSet
  by_cases h : m.any (fun p => p.1 == k) = true
  · simp only [h, if_true]
    unfold mapGet
    rw [find?_replace_self m k v h]
    rfl
  · simp only [h, if_false, Bool.false_eq_true]
    unfold mapGet
    have hnone : m.find? (fun p => p.1 == k) = none := by
      rw [List.find?_eq_none]
      intro p hp
      intro hc
      exact h (List.any_eq_true.mpr ⟨p, hp, hc⟩)
    rw [find?_append_of_none _ _ _ hnone]
    simp only [List.find?_cons, show ((k, v).1 == k) = true by simp]
    rfl

lemma find?_append_left {α : Type} (p : α → Bool) (l1 l2 : List α) (x : α)
    (h : l1.find? p = some x) : (l1 ++ l2).find? p = some x := by
  induction l1 with
  | nil => exact absurd h (by simp)
  | cons q rest ih =>
    cases hq : p q with
    | true =>
      simp only [List.find?_cons, hq] at h
      simp only [List.cons_append, List.find?_cons, hq]
      exact h
    | false =>
      simp only [List.find?_cons, hq] at h
      simp only [List.cons_append, List.find?_cons, hq]
      exact ih h

lemma mapGet_mapSet_ne (m : List (Int × Rat)) (k : Int) (v : Rat) (k2 : Int)
    (hne : k2 ≠ k) : mapGet (mapSet m k v) k2 = mapGet m k2 := by
  unfold mapSet
  by_cases h : m.any (fun p => p.1 == k) = true
  · simp only [h, if_true]
    unfold mapGet
    rw [find?_replace_ne m k v k2 hne]
  · simp only [h, if_false, Bool.false_eq_true]
    unfold mapGet
    cases hf : m.find? (fun p => p.1 == k2) with
    | some p => rw [find?_append_left _ _ _ _ hf]
    | none =>
      rw [find?_append_of_none _ _ _ hf]
      simp only [List.find?_cons, show (((k, v) : Int × Rat).1 == k2) = false by
        simpa using Ne.symm hne]
      rfl

lemma keysOf_mapSet (m : List (Int × Rat)) (k : Int) (v : Rat) :
    keysOf (mapSet m k v) = if k ∈ keysOf m then keysOf m else keysOf m ++ [k] := by
  unfold mapSet
  by_cases h : m.any (fun p => p.1 == k) = true
  · have hk : k ∈ keysOf m := (keyMem_iff m k).mp h
    rw [if_pos h, if_pos hk]
    unfold keysOf
    rw [List.map_map]
    apply List.map_congr_left
    intro p hp
    by_cases hpk : (p.1 == k) = true
    · have hp1 : p.1 = k := by simpa using hpk
      simp [Function.comp, hpk, hp1]
    · simp [Function.comp, hpk]
  · have hk : k ∉ keysOf m := fun hc => h ((keyMem_iff m k).mpr hc)
    rw [if_neg h, if_neg hk]
    unfold keysOf
    rw [List.map_append]
    rfl

lemma keysOf_mapSet_nodup (m : List (Int × Rat)) (k : Int) (v : Rat)
    (h : (keysOf m).Nodup) : (keysOf (mapSet m k v)).Nodup := by
  rw [keysOf_mapSet]
  by_cases hk : k ∈ keysOf m
  · rw [if_pos hk]
    exact h
  · rw [if_neg hk]
    rw [List.nodup_append]
    refine ⟨h, List.nodup_singleton k, ?_⟩
    intro a ha hb
    rw [List.mem_singleton] at hb
    subst hb
    exact hk ha

lemma keysOf_groupCosts_nodup (costs : List CostRecord) :
    ∀ m, (keysOf m).Nodup → (keysOf (groupCosts costs m)).Nodup := by
  induction costs with
  | nil => exact fun m h => h
  | cons r rs ih =>
    intro m h
    exact ih _ (keysOf_mapSet_nodup m r.timestamp _ h)

lemma mem_keysOf_groupCosts (costs : List CostRecord) :
    ∀ m k, k ∈ keysOf (groupCosts costs m) ↔ k ∈ keysOf m ∨ ∃ r ∈ costs, r.timestamp = k := by
  induction costs with
  | nil =>
    intro m k
    simp [groupCosts]
  | cons r rs ih =>
    intro m k
    show k ∈ keysOf (groupCosts rs _) ↔ _
    rw [ih]
    rw [keysOf_mapSet]
    rw [List.exists_mem_cons_iff]
    by_cases hr : r.timestamp ∈ keysOf m
    · rw [if_pos hr]
      constructor
      · rintro (h | h)
        · exact Or.inl h
        · exact Or.inr (Or.inr h)
      · rintro (h | (h | h))
        · exact Or.inl h
        · exact Or.inl (h ▸ hr)
        · exact Or.inr h
    · rw [if_neg hr]
      rw [List.mem_append, List.mem_singleton]
      constructor
      · rintro ((h | h) | h)
        · exact Or.inl h
        · exact Or.inr (Or.inl h.symm)
        · exact Or.inr (Or.inr h)
      · rintro (h | (h | h))
        · exact Or.inl (Or.inl h)
        · exact Or.inl (Or.inr h.symm)
        · exact Or.inr h

lemma getAt_groupCosts (costs : List CostRecord) :
    ∀ m k, getAt (groupCosts costs m) k = getAt m k + sumAt costs k := by
  induction costs with
  | nil =>
    intro m k
    show getAt m k = getAt m k + sumAt [] k
    simp [sumAt]
  | cons r rs ih =>
    intro m k
    show getAt (groupCosts rs _) k = _
    rw [ih]
    by_cases hk : k = r.timestamp
    · have h1 : getAt (mapSet m r.timestamp ((mapGet m r.timestamp).getD 0 + r.amount)) k =
          getAt m k + r.amount := by
        rw [hk]
        unfold getAt
        rw [mapGet_mapSet_self]
        rfl
      have hsum : sumAt (r :: rs) k = r.amount + sumAt rs k := by
        unfold sumAt
        rw [List.filter_cons]
        simp [show (r.timestamp == k) = true by simp [hk]]
      rw [h1, hsum]
      ring
    · have h1 : getAt (mapSet m r.timestamp ((mapGet m r.timestamp).getD 0 + r.amount)) k =
          getAt m k := by
        unfold getAt
        rw [mapGet_mapSet_ne _ _ _ _ hk]
      have hsum : sumAt (r :: rs) k = sumAt rs k := by
        unfold sumAt
        rw [List.filter_cons]
        simp [show (r.timestamp == k) = false by simpa using Ne.symm hk]
      rw [h1, hsum]

lemma getAt_groupCosts_nil (costs : List CostRecord) (k : Int) :
    getAt (groupCosts costs []) k = sumAt costs k := by
  rw [getAt_groupCosts]
  show getAt [] k + _ = _
  simp [getAt, mapGet]

lemma sum_if_single (F : List Int) (hnd : F.Nodup) (k : Int) (a : Rat) :
    (F.map (fun u => if k == u then a else 0)).sum = if k ∈ F then a else 0 := by
  induction F with
  | nil => simp
  | cons u rest ih =>
    rcases List.nodup_cons.mp hnd with ⟨hu, hrest⟩
    rw [List.map_cons, List.sum_cons, ih hrest]
    by_cases hk : k = u
    · subst hk
      simp [hu]
    · simp [show (k == u) = false by simpa using hk, List.mem_cons, hk]

lemma sumAt_cons (r : CostRecord) (rs : List CostRecord) (u : Int) :
    sumAt (r :: rs) u = (if r.timestamp == u then r.amount else 0) + sumAt rs u := by
  unfold sumAt
  rw [List.filter_cons]
  by_cases h : (r.timestamp == u) = true
  · simp [h]
  · simp [h]

lemma sumLe_cons (r : CostRecord) (rs : List CostRecord) (T : Int) :
    sumLe (r :: rs) T = (if r.timestamp ≤ T then r.amount else 0) + sumLe rs T := by
  unfold sumLe
  rw [List.filter_cons]
  by_cases h : r.timestamp ≤ T
  · simp [h]
  · simp [h]

lemma sum_sumAt_filter_le (costs : List CostRecord) (S : List Int) (hnd : S.Nodup) (T : Int)
    (hcover : ∀ r ∈ costs, r.timestamp ∈ S) :
    ((S.filter (fun u => decide (u ≤ T))).map (fun u => sumAt costs u)).sum = sumLe costs T := by
  induction costs with
  | nil =>
    unfold sumLe
    simp only [List.filter_nil, List.map_nil, List.sum_nil]
    apply List.sum_eq_zero
    intro x hx
    obtain ⟨u, hu, hx2⟩ := List.mem_map.mp hx
    rw [← hx2]
    unfold sumAt
    simp
  | cons r rs ih =>
    have hcov_r : r.timestamp ∈ S := hcover r (List.mem_cons_self r rs)
    have hcov_rs : ∀ q ∈ rs, q.timestamp ∈ S := fun q hq => hcover q (List.mem_cons_of_mem r hq)
    calc ((S.filter (fun u => decide (u ≤ T))).map (fun u => sumAt (r :: rs) u)).sum
        = ((S.filter (fun u => decide (u ≤ T))).map
            (fun u => (if r.timestamp == u then r.amount else 0) + sumAt rs u)).sum := by
          apply congrArg
          exact List.map_congr_left (fun u _ => sumAt_cons r rs u)
      _ = ((S.filter (fun u => decide (u ≤ T))).map
            (fun u => if r.timestamp == u then r.amount else 0)).sum +
          ((S.filter (fun u => decide (u ≤ T))).map (fun u => sumAt rs u)).sum :=
          List.sum_map_add
      _ = (if r.timestamp ∈ S.filter (fun u => decide (u ≤ T)) then r.amount else 0) +
          sumLe rs T := by
          rw [sum_if_single _ (hnd.filter _) r.timestamp r.amount, ih hcov_rs]
      _ = (if r.timestamp ≤ T then r.amount else 0) + sumLe rs T := by
          congr 1
          by_cases hT : r.timestamp ≤ T
          · rw [if_pos hT, if_pos (List.mem_filter.mpr ⟨hcov_r, by simpa using hT⟩)]
          · rw [if_neg hT, if_neg (fun hc => hT (by simpa using (List.mem_filter.mp hc).2))]
      _ = sumLe (r :: rs) T := (sumLe_cons r rs T).symm

lemma buildPoints_cons (m : List (Int × Rat)) (h : List NodeAssignment) (t : Int)
    (ts : List Int) (cum : Rat) :
    buildPoints m h (t :: ts) cum =
      { timestamp := t, totalCost := cum + getAt m t, currency := "USD",
        newNodes := newNodesAt h t } :: buildPoints m h ts (cum + getAt m t) := rfl

lemma buildPoints_eq (m : List (Int × Rat)) (h : List NodeAssignment) :
    ∀ (ts : List Int) (cum : Rat), List.Pairwise (fun a b => a < b) ts →
      buildPoints m h ts cum =
        ts.map (fun t =>
          { timestamp := t,
            totalCost :=
              cum + ((ts.filter (fun u => decide (u ≤ t))).map (fun u => getAt m u)).sum,
            currency := "USD", newNodes := newNodesAt h t }) := by
  intro ts
  induction ts with
  | nil =>
    intro cum _
    rfl
  | cons t rest ih =>
    intro cum hp
    rcases List.pairwise_cons.mp hp with ⟨hlt, hrest⟩
    rw [buildPoints_cons, ih (cum + getAt m t) hrest, List.map_cons]
    have hhead : ((t :: rest).filter (fun u => decide (u ≤ t))).map (fun u => getAt m u) =
        [getAt m t] := by
      rw [List.filter_cons]
      simp only [decide_eq_true_eq, le_refl, if_true]
      have : rest.filter (fun u => decide (u ≤ t)) = [] := by
        rw [List.filter_eq_nil_iff]
        intro u hu
        simp only [decide_eq_true_eq]
        exact not_le_of_lt (hlt u hu)
      rw [this]
      rfl
    congr 1
    · rw [hhead]
      show _ = ChartDataPoint.mk t (cum + (getAt m t + 0)) "USD" (newNodesAt h t)
      rw [add_zero]
    · apply List.map_congr_left
      intro u hu
      have htu : t ≤ u := le_of_lt (hlt u hu)
      have hfil : ((t :: rest).filter (fun w => decide (w ≤ u))) =
          t :: rest.filter (fun w => decide (w ≤ u)) := by
        rw [List.filter_cons]
        simp [htu]
      rw [hfil, List.map_cons, List.sum_cons, ← add_assoc]

/-- The sorted distinct timestamps a chart is drawn over. -/
def chartTimestamps (costs : List CostRecord) : List Int :=
  (keysOf (groupCosts costs [])).mergeSort

lemma chartTimestamps_nodup (costs : List CostRecord) : (chartTimestamps costs).Nodup :=
  (List.mergeSort_perm _ _).nodup_iff.mpr
    (keysOf_groupCosts_nodup costs [] (by simp [keysOf]))

lemma chartTimestamps_sorted (costs : List CostRecord) :
    List.Sorted (fun a b => a ≤ b) (chartTimestamps costs) :=
  List.sorted_mergeSort' _

lemma chartTimestamps_pairwise_lt (costs : List CostRecord) :
    List.Pairwise (fun a b => a < b) (chartTimestamps costs) :=
  ((chartTimestamps_sorted costs).and
    (List.Pairwise.imp (fun hne => hne) (chartTimestamps_nodup costs))).imp
    (fun hab => lt_of_le_of_ne hab.1 hab.2)

lemma mem_chartTimestamps (costs : List CostRecord) (t : Int) :
    t ∈ chartTimestamps costs ↔ ∃ r ∈ costs, r.timestamp = t := by
  unfold chartTimestamps
  rw [(List.mergeSort_perm _ _).mem_iff, mem_keysOf_groupCosts]
  simp [keysOf]

lemma prepareChartData_closed (costs : List CostRecord) (h : List NodeAssignment)
    (hne : costs.isEmpty = false) :
    prepareChartData costs h =
      (chartTimestamps costs).map (fun t =>
        { timestamp := t, totalCost := sumLe costs t, currency := "USD",
          newNodes := newNodesAt h t }) := by
  unfold prepareChartData
  simp only [hne, Bool.false_eq_true, if_false]
  have hcover : ∀ r ∈ costs, r.timestamp ∈ chartTimestamps costs :=
    fun r hr => (mem_chartTimestamps costs r.timestamp).mpr ⟨r, hr, rfl⟩
  rw [show ((groupCosts costs []).map (fun p => p.1)).mergeSort (fun a b => decide (a ≤ b)) =
    chartTimestamps costs from rfl]
  rw [buildPoints_eq (groupCosts costs []) h (chartTimestamps costs) 0
    (chartTimestamps_pairwise_lt costs)]
  apply List.map_congr_left
  intro t htS
  have hsum : (((chartTimestamps costs).filter (fun u => decide (u ≤ t))).map
      (fun u => getAt (groupCosts costs []) u)).sum = sumLe costs t := by
    rw [List.map_congr_left (fun u _ => getAt_groupCosts_nil costs u)]
    exact sum_sumAt_filter_le costs (chartTimestamps costs) (chartTimestamps_nodup costs)
      t hcover
  rw [zero_add, hsum]

lemma mem_newNodesAt (h : List NodeAssignment) (t : Int) (id2 : String) :
    (∃ ns, newNodesAt h t = some ns ∧ id2 ∈ ns) ↔
      ∃ n ∈ h, n.nodeId = id2 ∧ (n.issuedAt - t).natAbs < 3600 := by
  unfold newNodesAt
  by_cases hlen :
      ((h.filter (fun n => (n.issuedAt - t).natAbs < 3600)).map (fun n => n.nodeId)).length > 0
  · simp only [hlen, if_true]
    constructor
    · rintro ⟨ns, hns, hid⟩
      injection hns with hns2
      rw [← hns2] at hid
      obtain ⟨n, hn, hnid⟩ := List.mem_map.mp hid
      rcases List.mem_filter.mp hn with ⟨hnh, hcond⟩
      exact ⟨n, hnh, hnid, by simpa using hcond⟩
    · rintro ⟨n, hn, hnid, hcond⟩
      refine ⟨_, rfl, ?_⟩
      exact List.mem_map.mpr ⟨n, List.mem_filter.mpr ⟨hn, by simpa using hcond⟩, hnid⟩
  · simp only [hlen, if_false]
    constructor
    · rintro ⟨ns, hns, hid⟩
      exact absurd hns (by simp)
    · rintro ⟨n, hn, hnid, hcond⟩
      exact absurd (List.length_pos.mpr (by
        intro hc
        have : n ∈ h.filter (fun n => (n.issuedAt - t).natAbs < 3600) :=
          List.mem_filter.mpr ⟨hn, by simpa using hcond⟩
        rw [List.map_eq_nil_iff] at hc
        rw [hc] at this
        exact absurd this (List.not_mem_nil n))) hlen

lemma newNodesAt_none (h : List NodeAssignment) (t : Int) :
    newNodesAt h t = none ↔ ∀ n ∈ h, ¬((n.issuedAt - t).natAbs < 3600) := by
  unfold newNodesAt
  by_cases hlen :
      ((h.filter (fun n => (n.issuedAt - t).natAbs < 3600)).map (fun n => n.nodeId)).length > 0
  · simp only [hlen, if_true]
    constructor
    · intro hc
      exact absurd hc (by simp)
    · intro hall
      exfalso
      obtain ⟨x, hx⟩ := List.exists_mem_of_length_pos hlen
      obtain ⟨n, hn, _⟩ := List.mem_map.mp hx
      rcases List.mem_filter.mp hn with ⟨hnh, hcond⟩
      exact hall n hnh (by simpa using hcond)
  · simp only [hlen, if_false]
    constructor
    · intro _ n hn hcond
      apply hlen
      apply List.length_pos.mpr
      intro hc
      have : n ∈ h.filter (fun n => (n.issuedAt - t).natAbs < 3600) :=
        List.mem_filter.mpr ⟨hn, by simpa using hcond⟩
      rw [List.map_eq_nil_iff] at hc
      rw [hc] at this
      exact absurd this (List.not_mem_nil n)
    · intro _
      trivial

lemma sumLe_perm (costs costs2 : List CostRecord) (hperm : costs.Perm costs2) (t : Int) :
    sumLe costs t = sumLe costs2 t :=
  ((hperm.filter _).map _).sum_eq

lemma chartTimestamps_perm (costs costs2 : List CostRecord) (hperm : costs.Perm costs2) :
    chartTimestamps costs = chartTimestamps costs2 := by
  apply List.eq_of_perm_of_sorted ?_ (chartTimestamps_sorted costs)
    (chartTimestamps_sorted costs2)
  have h1 := List.mergeSort_perm (keysOf (groupCosts costs [])) (fun a b => decide (a ≤ b))
  have h2 := List.mergeSort_perm (keysOf (groupCosts costs2 [])) (fun a b => decide (a ≤ b))
  have hk : (keysOf (groupCosts costs [])).Perm (keysOf (groupCosts costs2 [])) := by
    apply (List.perm_ext_iff_of_nodup
      (keysOf_groupCosts_nodup costs [] (by simp [keysOf]))
      (keysOf_groupCosts_nodup costs2 [] (by simp [keysOf]))).mpr
    intro a
    rw [mem_keysOf_groupCosts, mem_keysOf_groupCosts]
    simp only [keysOf, List.map_nil, List.not_mem_nil, false_or]
    constructor
    · rintro ⟨r, hr, he⟩
      exact ⟨r, hperm.mem_iff.mp hr, he⟩
    · rintro ⟨r, hr, he⟩
      exact ⟨r, hperm.mem_iff.mpr hr, he⟩
  exact h1.trans (hk.trans h2.symm)

/-- C9: full characterisation of `prepareChartData`.  Empty cost input gives
an empty chart.  Otherwise the chart has exactly one point per distinct
record timestamp, in strictly increasing timestamp order; each point's
`totalCost` is the sum of the amounts of all records with timestamp at most
that point's timestamp; a node id appears in a point's `newNodes` exactly
when some assignment of that node lies within 3600 seconds of the point's
timestamp, and `newNodes` is absent precisely when no node qualifies.
Consequently the output is invariant under permutation of the cost list. -/
theorem prepareChartData_spec (costs costs2 : List CostRecord) (h : List NodeAssignment)
    (hperm : costs.Perm costs2) :
    (costs = [] → prepareChartData costs h = []) ∧
    List.Pairwise (fun p q : ChartDataPoint => p.timestamp < q.timestamp)
      (prepareChartData costs h) ∧
    (∀ t, (∃ p ∈ prepareChartData costs h, p.timestamp = t) ↔
        ∃ r ∈ costs, r.timestamp = t) ∧
    (∀ p ∈ prepareChartData costs h,
        p.totalCost = ((costs.filter (fun r => decide (r.timestamp ≤ p.timestamp))).map
          (fun r => r.amount)).sum) ∧
    (∀ p ∈ prepareChartData costs h, ∀ w,
        (∃ ns, p.newNodes = some ns ∧ w ∈ ns) ↔
          ∃ n ∈ h, n.nodeId = w ∧ (n.issuedAt - p.timestamp).natAbs < 3600) ∧
    (∀ p ∈ prepareChartData costs h,
        (p.newNodes = none ↔ ∀ n ∈ h, ¬((n.issuedAt - p.timestamp).natAbs < 3600))) ∧
    prepareChartData costs h = prepareChartData costs2 h := by
  by_cases hnil : costs = []
  · subst hnil
    have hnil2 : costs2 = [] := hperm.symm.eq_nil
    subst hnil2
    refine ⟨fun _ => rfl, ?_, ?_, ?_, ?_, ?_, rfl⟩
    · exact List.Pairwise.nil
    · intro t
      constructor
      · rintro ⟨p, hp, _⟩
        exact absurd hp (List.not_mem_nil p)
      · rintro ⟨r, hr, _⟩
        exact absurd hr (List.not_mem_nil r)
    · intro p hp
      exact absurd hp (List.not_mem_nil p)
    · intro p hp
      exact absurd hp (List.not_mem_nil p)
    · intro p hp
      exact absurd hp (List.not_mem_nil p)
  · have hne : costs.isEmpty = false := by
      cases hc : costs.isEmpty with
      | false => rfl
      | true => exact absurd (by simpa using hc) hnil
    have hnil2 : costs2 ≠ [] := by
      intro hc
      rw [hc] at hperm
      exact hnil hperm.eq_nil
    have hne2 : costs2.isEmpty = false := by
      cases hc : costs2.isEmpty with
      | false => rfl
      | true => exact absurd (by simpa using hc) hnil2
    rw [prepareChartData_closed costs h hne]
    refine ⟨fun hc => absurd hc hnil, ?_, ?_, ?_, ?_, ?_, ?_⟩
    · exact List.pairwise_map.mpr (chartTimestamps_pairwise_lt costs)
    · intro t
      constructor
      · rintro ⟨p, hp, he⟩
        obtain ⟨u, hu, rfl⟩ := List.mem_map.mp hp
        rw [← he]
        exact (mem_chartTimestamps costs u).mp hu
      · intro hr
        have hu : t ∈ chartTimestamps costs := (mem_chartTimestamps costs t).mpr hr
        exact ⟨_, List.mem_map.mpr ⟨t, hu, rfl⟩, rfl⟩
    · intro p hp
      obtain ⟨u, hu, rfl⟩ := List.mem_map.mp hp
      rfl
    · intro p hp w
      obtain ⟨u, hu, rfl⟩ := List.mem_map.mp hp
      exact mem_newNodesAt h u w
    · intro p hp
      obtain ⟨u, hu, rfl⟩ := List.mem_map.mp hp
      exact newNodesAt_none h u
    · rw [prepareChartData_closed costs2 h hne2, chartTimestamps_perm costs costs2 hperm]
      apply List.map_congr_left
      intro t ht
      rw [sumLe_perm costs costs2 hperm t]

/-- The concrete cost rows of the C9 witness: three rows over two distinct
timestamps, listed out of order. -/
def c9Costs : List CostRecord :=
  [{ timestamp := 20, amount := 3, currency := "USD", description := "b" },
   { timestamp := 10, amount := 1, currency := "USD", description := "a" },
   { timestamp := 20, amount := 2, currency := "USD", description := "c" }]

/-- A permutation of the C9 witness rows. -/
def c9CostsPerm : List CostRecord :=
  [{ timestamp := 10, amount := 1, currency := "USD", description := "a" },
   { timestamp := 20, amount := 2, currency := "USD", description := "c" },
   { timestamp := 20, amount := 3, currency := "USD", description := "b" }]

/-- The concrete node history of the C9 witness. -/
def c9History : List NodeAssignment :=
  [{ nodeId := "n1.os", apiKey := "K1", issuedAt := 12 }]

/-- Witness for C9 at a concrete input: the permutation hypothesis holds for
the two concrete row lists, and the chart they generate is
permutation-invariant and strictly ordered. -/
theorem prepareChartData_spec_witness :
    c9Costs.Perm c9CostsPerm ∧
    List.Pairwise (fun p q : ChartDataPoint => p.timestamp < q.timestamp)
      (prepareChartData c9Costs c9History) ∧
    prepareChartData c9Costs c9History = prepareChartData c9CostsPerm c9History :=
  ⟨by decide,
   (prepareChartData_spec c9Costs c9CostsPerm c9History (by decide)).2.1,
   (prepareChartData_spec c9Costs c9CostsPerm c9History (by decide)).2.2.2.2.2.2⟩

lemma sumLe_mono (costs : List CostRecord) (hpos : ∀ r ∈ costs, 0 ≤ r.amount)
    (t u : Int) (htu : t ≤ u) : sumLe costs t ≤ sumLe costs u := by
  induction costs with
  | nil => exact le_refl _
  | cons r rs ih =>
    rw [sumLe_cons, sumLe_cons]
    have h1 : (if r.timestamp ≤ t then r.amount else 0) ≤
        (if r.timestamp ≤ u then r.amount else 0) := by
      by_cases hr : r.timestamp ≤ t
      · rw [if_pos hr, if_pos (le_trans hr htu)]
      · rw [if_neg hr]
        by_cases hr2 : r.timestamp ≤ u
        · rw [if_pos hr2]
          exact hpos r (List.mem_cons_self r rs)
        · rw [if_neg hr2]
    exact add_le_add h1 (ih (fun q hq => hpos q (List.mem_cons_of_mem r hq)))

/-- C7: with non-negative amounts, the plotted cumulative total never
decreases — along the chart's (timestamp-ordered) points, `totalCost` is
non-decreasing. -/
theorem chart_totalCost_monotone (costs : List CostRecord) (h : List NodeAssignment)
    (hpos : ∀ r ∈ costs, 0 ≤ r.amount) :
    List.Pairwise (fun p q : ChartDataPoint => p.totalCost ≤ q.totalCost)
      (prepareChartData costs h) := by
  by_cases hnil : costs = []
  · subst hnil
    exact List.Pairwise.nil
  · have hne : costs.isEmpty = false := by
      cases hc : costs.isEmpty with
      | false => rfl
      | true => exact absurd (by simpa using hc) hnil
    rw [prepareChartData_closed costs h hne]
    apply List.pairwise_map.mpr
    apply (chartTimestamps_pairwise_lt costs).imp
    intro a b hab
    exact sumLe_mono costs hpos a b (le_of_lt hab)

/-- Witness for C7 at a concrete input: the hypothesis (all amounts
non-negative) holds for the C9 witness rows, whose chart has non-decreasing
totals. -/
theorem chart_totalCost_monotone_witness :
    (∀ r ∈ c9Costs, 0 ≤ r.amount) ∧
    List.Pairwise (fun p q : ChartDataPoint => p.totalCost ≤ q.totalCost)
      (prepareChartData c9Costs c9History) :=
  ⟨by
    intro r hr
    rcases List.mem_cons.mp hr with rfl | hr2
    · norm_num
    · rcases List.mem_cons.mp hr2 with rfl | hr3
      · norm_num
      · rcases List.mem_singleton.mp hr3 with rfl
        norm_num,
   chart_totalCost_monotone c9Costs c9History (by
    intro r hr
    rcases List.mem_cons.mp hr with rfl | hr2
    · norm_num
    · rcases List.mem_cons.mp hr2 with rfl | hr3
      · norm_num
      · rcases List.mem_singleton.mp hr3 with rfl
        norm_num)⟩
